import Mathlib

/-!
Verification of the browser-automation agent's tool-invocation and
execution-log subsystem.

The definitions below are a shallow embedding of the TypeScript source
(`src/lib/agent`): the execution log and its LIFO resolution
(`logToolStart` / `logToolSuccess` / `logToolError`), the multi-strategy
element resolution of `type_in_field` and `click_by_text`, the
`wait_for_human` poll loop, the session lifecycle
(`initializeBrowser` / `cleanupBrowser`), and the `get_response_data`
text preview.  Browser state visible to the code (element match counts,
page URL, query failures) is abstracted as explicit inputs; time in the
poll loop advances only at the 1.5 s sleeps (queries are modelled as
instantaneous).
-/

namespace BrowserAgent

/-! ## Execution log -/

/-- Embedding of the source's `ToolLogItem` record.  `args` is `none` for the
defensively appended entries (the source stores `null` there), `result` and
`error` are absent until the entry is resolved.  The payload type of `args`
and `result` is a parameter `α` (the source stores untyped values). -/
structure ToolLogItem (α : Type) where
  toolName : String
  args : Option α
  result : Option α
  error : Option String
  timestamp : Nat
  deriving DecidableEq, Repr

/-- Check used by the downward scans in `logToolSuccess` / `logToolError`:
same tool name and both `result` and `error` still absent. -/
def isPending {α : Type} (name : String) (e : ToolLogItem α) : Bool :=
  e.toolName == name && e.result.isNone && e.error.isNone

/-- Index of the most recent (highest-index) pending entry for `name`,
mirroring the source's `for (let i = log.length - 1; i >= 0; i--)` scan:
a pending entry later in the list always wins over an earlier one. -/
def lastPendingIdx {α : Type} (name : String) : List (ToolLogItem α) → Option Nat
  | [] => none
  | e :: rest =>
    match lastPendingIdx name rest with
    | some j => some (j + 1)
    | none => if isPending name e then some 0 else none

/-- In-place mutation `log[i].result = v` of the source, as a pure update. -/
def setResultAt {α : Type} (v : α) : List (ToolLogItem α) → Nat → List (ToolLogItem α)
  | [], _ => []
  | e :: rest, 0 => { e with result := some v } :: rest
  | e :: rest, n + 1 => e :: setResultAt v rest n

/-- In-place mutation `log[i].error = msg` of the source, as a pure update. -/
def setErrorAt {α : Type} (msg : String) : List (ToolLogItem α) → Nat → List (ToolLogItem α)
  | [], _ => []
  | e :: rest, 0 => { e with error := some msg } :: rest
  | e :: rest, n + 1 => e :: setErrorAt msg rest n

/-- Embedding of `logToolStart`: push a fresh pending entry. -/
def logToolStart {α : Type} (name : String) (args : α) (now : Nat)
    (log : List (ToolLogItem α)) : List (ToolLogItem α) :=
  log ++ [⟨name, some args, none, none, now⟩]

/-- Embedding of `logToolSuccess`: resolve the most recent pending entry with
this tool name, or append an already-resolved entry (with `args = null`)
when none is pending. -/
def logToolSuccess {α : Type} (name : String) (v : α) (now : Nat)
    (log : List (ToolLogItem α)) : List (ToolLogItem α) :=
  match lastPendingIdx name log with
  | some i => setResultAt v log i
  | none => log ++ [⟨name, none, some v, none, now⟩]

/-- Embedding of `logToolError`: resolve the most recent pending entry with
this tool name, or append an already-resolved entry when none is pending. -/
def logToolError {α : Type} (name : String) (msg : String) (now : Nat)
    (log : List (ToolLogItem α)) : List (ToolLogItem α) :=
  match lastPendingIdx name log with
  | some i => setErrorAt msg log i
  | none => log ++ [⟨name, none, none, some msg, now⟩]

/-- The three logging operations that mutate the execution log during a task. -/
inductive LogOp (α : Type) where
  | start (name : String) (args : α) (now : Nat)
  | success (name : String) (v : α) (now : Nat)
  | failure (name : String) (msg : String) (now : Nat)

/-- Apply one logging operation to the log. -/
def applyLogOp {α : Type} : LogOp α → List (ToolLogItem α) → List (ToolLogItem α)
  | .start n a t, log => logToolStart n a t log
  | .success n v t, log => logToolSuccess n v t log
  | .failure n m t, log => logToolError n m t log

/-- Entry-level invariant: `result` and `error` are never both set. -/
def exclusiveOk {α : Type} (log : List (ToolLogItem α)) : Prop :=
  ∀ e ∈ log, e.result = none ∨ e.error = none

/-- An entry is resolved once either field is set. -/
def resolvedEntry {α : Type} (e : ToolLogItem α) : Bool :=
  e.result.isSome || e.error.isSome

/-! ## String helpers (JavaScript `String.prototype.includes`) -/

/-- Check whether `needle` occurs as a contiguous run inside the second list. -/
def containsSub (needle : List Char) : List Char → Bool
  | [] => needle.isEmpty
  | c :: rest => needle.isPrefixOf (c :: rest) || containsSub needle rest

/-- Embedding of JavaScript's `hay.includes(needle)`. -/
def strContains (hay needle : String) : Bool :=
  containsSub needle.data hay.data

/-- Embedding of JavaScript's `s.toLowerCase()`. -/
def lowerString (s : String) : String :=
  ⟨s.data.map Char.toLower⟩

/-- Embedding of JavaScript's `s.trim()`: strip whitespace from both ends. -/
def trimString (s : String) : String :=
  ⟨((s.data.dropWhile Char.isWhitespace).reverse.dropWhile Char.isWhitespace).reverse⟩

/-! ## Element resolution (`type_in_field`, `click_by_text`)

The live page is abstracted as the match counts the code can observe:
`labelCount f` is `page.getByLabel(f, { exact: false }).count()` and
`cssCount sel` is `page.locator(sel).count()`.  `url` is `page.url()`. -/

/-- Abstract view of the DOM as seen through the locator queries. -/
structure Dom where
  labelCount : String → Nat
  cssCount : String → Nat
  url : String

/-- The attribute-substring selector list of `typeInField` (`selectors` in the
source), in source order: placeholder, aria-label, name, id, each for both
`input` and `textarea`. -/
def attrSelectors (f : String) : List String :=
  ["input[placeholder*=\"" ++ f ++ "\"]",
   "textarea[placeholder*=\"" ++ f ++ "\"]",
   "input[aria-label*=\"" ++ f ++ "\"]",
   "textarea[aria-label*=\"" ++ f ++ "\"]",
   "input[name*=\"" ++ f ++ "\" i]",
   "textarea[name*=\"" ++ f ++ "\" i]",
   "input[id*=\"" ++ f ++ "\" i]",
   "textarea[id*=\"" ++ f ++ "\" i]"]

/-- The label-container patterns of `typeInField` (`labelPatterns` in the
source), in source order. -/
def labelPatterns (f : String) : List String :=
  ["label:has-text(\"" ++ f ++ "\") input",
   "label:has-text(\"" ++ f ++ "\") textarea",
   "label:has-text(\"" ++ f ++ "\") >> xpath=following::input[1]",
   "label:has-text(\"" ++ f ++ "\") >> xpath=following::textarea[1]"]

/-- The keyword-keyed fallback selectors of `typeInField` (`smartFallbacks`
in the source): the three `if (lower.includes(...)) push(...)` blocks, in
source order. -/
def smartFallbacks (f : String) : List String :=
  (if strContains (lowerString f) "email" then
    ["input[type=\"email\"]", "input[name=\"email\"]"]
   else []) ++
  (if strContains (lowerString f) "password" then
    ["input[type=\"password\"]", "input[name=\"password\"]"]
   else []) ++
  (if strContains (lowerString f) "name" then
    ["input[name=\"name\"]", "input[name*=\"name\" i]"]
   else [])

/-- Embedding of the source's `for (const selector of list) if (await
loc.count()) ...` loops: the first selector whose match count is nonzero. -/
def firstPresent (dom : Dom) : List String → Option String
  | [] => none
  | s :: rest => if 0 < dom.cssCount s then some s else firstPresent dom rest

/-- Success payload of `type_in_field` (`screenshot` keeps only the tag the
source passes to `safeScreenshot`). -/
structure FieldSuccess where
  selectorUsed : String
  screenshot : String
  deriving DecidableEq, Repr

/-- Embedding of the resolution logic of `typeInField`: the accessible-label
lookup, then the attribute and label-container selector loop, then the smart
fallbacks, and the field-not-found failure once everything is exhausted.
The fill of `text` itself has no observable effect in this model. -/
def typeInField (dom : Dom) (field : String) (text : String) : Except String FieldSuccess :=
  let f := trimString field
  if 0 < dom.labelCount f then
    Except.ok ⟨"getByLabel(" ++ f ++ ")", "type"⟩
  else
    match firstPresent dom (attrSelectors f ++ labelPatterns f) with
    | some sel => Except.ok ⟨sel, "type"⟩
    | none =>
      match firstPresent dom (smartFallbacks f) with
      | some sel => Except.ok ⟨"smart:" ++ sel, "type"⟩
      | none => Except.error ("Input field not found: " ++ field)

/-- Success payload of `click_by_text`. -/
structure ClickSuccess where
  selectorUsed : String
  clicked : String
  url : String
  screenshot : String
  deriving DecidableEq, Repr

/-- The candidate selector list of `clickByText`, in source order (the bare
`text=` candidate is commented out in the source; only the lower-cased one
remains). -/
def clickCandidates (text : String) : List String :=
  ["button:has-text(\"" ++ text ++ "\")",
   "a:has-text(\"" ++ text ++ "\")",
   "[role=\"button\"]:has-text(\"" ++ text ++ "\")",
   "[role=\"menuitem\"]:has-text(\"" ++ text ++ "\")",
   "text=" ++ lowerString text]

/-- Embedding of the resolution logic of `clickByText`. -/
def clickByText (dom : Dom) (text : String) : Except String ClickSuccess :=
  match firstPresent dom (clickCandidates text) with
  | some sel => Except.ok ⟨sel, text, dom.url, "click"⟩
  | none => Except.error ("Could not find clickable text: \"" ++ text ++ "\"")

/-- One resolution strategy of `type_in_field`, tagged with how the source
reports it in `selectorUsed`. -/
inductive Candidate where
  | byLabel (f : String)
  | css (sel : String)
  | smart (sel : String)
  deriving DecidableEq, Repr

/-- Match count a candidate strategy observes on the page. -/
def candCount (dom : Dom) : Candidate → Nat
  | .byLabel f => dom.labelCount f
  | .css s => dom.cssCount s
  | .smart s => dom.cssCount s

/-- The `selectorUsed` string the source reports for a candidate. -/
def candName : Candidate → String
  | .byLabel f => "getByLabel(" ++ f ++ ")"
  | .css s => s
  | .smart s => "smart:" ++ s

/-- The full fixed priority order of `type_in_field`: accessible label, then
the attribute selectors, then the label-container patterns, then the smart
fallbacks. -/
def candidateOrder (field : String) : List Candidate :=
  let f := trimString field
  Candidate.byLabel f ::
    ((attrSelectors f ++ labelPatterns f).map Candidate.css ++
      (smartFallbacks f).map Candidate.smart)

/-- Modelled from the spec's words (§4.3): the chosen strategy is the first
one in the fixed priority order whose match count is nonzero. -/
def firstCandidate (dom : Dom) (field : String) : Option Candidate :=
  (candidateOrder field).find? (fun c => decide (0 < candCount dom c))

/-- Modelled from the spec's words (§4.3): field resolution succeeds with the
first viable candidate and fails, naming the field, only when every strategy
is exhausted. -/
def fieldResolutionSpec (dom : Dom) (field : String) : Except String FieldSuccess :=
  match firstCandidate dom field with
  | some c => Except.ok ⟨candName c, "type"⟩
  | none => Except.error ("Input field not found: " ++ field)

/-! ## `wait_for_human` poll loop

Each poll iteration observes the page: the two locator-count queries (either
of which may throw, which the source turns into `false` via
`.catch(() => false)`) and the current URL.  Time advances only at the
1.5 s sleeps, so after `iter` blocked iterations the elapsed wall clock is
`1500 * iter` ms against the 120 000 ms budget. -/

/-- What one poll iteration of `waitForHuman` observes. -/
structure RawObs where
  captchaQuery : Except String Nat
  verifyQuery : Except String Nat
  url : String
  deriving Repr

/-- Embedding of `.count().then((c) => c > 0).catch(() => false)`: a failing
query counts as the condition being absent. -/
def queryHolds : Except String Nat → Bool
  | Except.ok c => decide (0 < c)
  | Except.error _ => false

/-- The challenge-detection disjunction of one iteration: reCAPTCHA iframe
present, challenge-phrase text visible, or the URL containing "sorry". -/
def blockedObs (o : RawObs) : Bool :=
  queryHolds o.captchaQuery || queryHolds o.verifyQuery || strContains o.url "sorry"

/-- Poll interval of the loop, in milliseconds. -/
def pollMs : Nat := 1500

/-- Wall-clock budget of the loop, in milliseconds. -/
def budgetMs : Nat := 120000

/-- Success payload of `wait_for_human` (`screenshot` keeps the tag). -/
structure WaitSuccess where
  url : String
  screenshot : String
  deriving DecidableEq, Repr

/-- Embedding of the `while (Date.now() - start < timeout)` loop of
`waitForHuman`, from iteration `iter` on.  The second component counts the
screenshots captured: one on the success path, none on the timeout path. -/
def waitLoop (env : Nat → RawObs) (iter : Nat) : Except String WaitSuccess × Nat :=
  if h : pollMs * iter < budgetMs then
    if blockedObs (env iter) then waitLoop env (iter + 1)
    else (Except.ok ⟨(env iter).url, "human_done"⟩, 1)
  else
    (Except.error "Captcha wait timed out after 2 minutes", 0)
termination_by budgetMs - pollMs * iter
decreasing_by simp [pollMs, budgetMs] at h ⊢; omega

/-- Embedding of `waitForHuman`'s execute body after session setup. -/
def waitForHuman (env : Nat → RawObs) : Except String WaitSuccess × Nat :=
  waitLoop env 0

/-! ## Session lifecycle (`initializeBrowser`, `cleanupBrowser`) -/

/-- Handle of a launched browser, identified abstractly. -/
structure BrowserHandle where
  id : Nat
  deriving DecidableEq, Repr

/-- Handle of a browser context. -/
structure ContextHandle where
  id : Nat
  deriving DecidableEq, Repr

/-- Handle of a page. -/
structure PageHandle where
  id : Nat
  deriving DecidableEq, Repr

/-- What `chromium.launch` / `newContext` / `newPage` would produce on this
call. -/
structure LaunchResult where
  browserH : BrowserHandle
  contextH : ContextHandle
  pageH : PageHandle
  deriving DecidableEq, Repr

/-- The module-level mutable session state: `browser`, `context`, `page`. -/
structure Session where
  browser : Option BrowserHandle
  context : Option ContextHandle
  page : Option PageHandle
  deriving DecidableEq, Repr

/-- The state before any initialization: all three handles absent. -/
def emptySession : Session :=
  { browser := none, context := none, page := none }

/-- Embedding of `initializeBrowser`: launch and populate all three handles
only when `browser` is absent; otherwise leave the session untouched. -/
def initializeBrowser (s : Session) (h : LaunchResult) : Session :=
  match s.browser with
  | some _ => s
  | none => { browser := some h.browserH, context := some h.contextH, page := some h.pageH }

/-- Which of the three per-handle `close()` calls fail on this cleanup. -/
structure CloseBehavior where
  pageCloseFails : Bool
  contextCloseFails : Bool
  browserCloseFails : Bool
  deriving DecidableEq, Repr

/-- Outcome of `handle?.close()`: it can only fail when a handle is present. -/
def closeAttempt (present : Bool) (fails : Bool) : Except String Unit :=
  if present && fails then Except.error "close failed" else Except.ok ()

/-- Embedding of `.catch(() => {})` on a close: any failure is swallowed. -/
def swallowFailure (x : Except String Unit) : Except String Unit :=
  match x with
  | Except.ok _ => Except.ok ()
  | Except.error _ => Except.ok ()

/-- The `try` block of `cleanupBrowser`: close page, context, browser in that
order, each close's failure swallowed per-handle. -/
def cleanupBody (b : CloseBehavior) (s : Session) : Except String Unit := do
  let _ ← swallowFailure (closeAttempt s.page.isSome b.pageCloseFails)
  let _ ← swallowFailure (closeAttempt s.context.isSome b.contextCloseFails)
  swallowFailure (closeAttempt s.browser.isSome b.browserCloseFails)

/-- Embedding of `cleanupBrowser`: the `finally` block resets all three
handles to absent whatever the `try` block did, and the body's outcome (which
would re-propagate after the `finally` if it were a failure) is returned
alongside the final state. -/
def cleanupBrowser (b : CloseBehavior) (s : Session) : Except String Unit × Session :=
  (cleanupBody b s, emptySession)

/-- The session states reachable by the lifecycle operations, from the
initial all-absent state. -/
inductive ReachableSession : Session → Prop where
  | empty : ReachableSession emptySession
  | ensure (s : Session) (h : LaunchResult) :
      ReachableSession s → ReachableSession (initializeBrowser s h)
  | cleanup (b : CloseBehavior) (s : Session) :
      ReachableSession s → ReachableSession (cleanupBrowser b s).2

/-- The session invariant of the spec: page is non-null iff context is
non-null iff browser is non-null. -/
def sessionAligned (s : Session) : Prop :=
  s.page.isSome = s.context.isSome ∧ s.context.isSome = s.browser.isSome

/-! ## `get_response_data` text preview

Embedding of `t.replace(/\n\x7b3,\x7d/g, "\n\n").trim().slice(0, 2000)` on
`document.body.innerText`, at the level of character lists. -/

/-- Collapsing pass of the regex replace: `k` counts the newlines of the
current run already emitted; from the third newline of a run on, newlines
are dropped, so every run of three or more newlines comes out as exactly
two. -/
def collapseGo : Nat → List Char → List Char
  | _, [] => []
  | k, c :: rest =>
    if c = '\n' then
      if k < 2 then c :: collapseGo (k + 1) rest else collapseGo k rest
    else c :: collapseGo 0 rest

/-- Embedding of `t.replace(/\n\x7b3,\x7d/g, "\n\n")`. -/
def collapseNewlines (l : List Char) : List Char :=
  collapseGo 0 l

/-- Embedding of JavaScript `trim()`: strip whitespace from both ends. -/
def jsTrim (l : List Char) : List Char :=
  ((l.dropWhile Char.isWhitespace).reverse.dropWhile Char.isWhitespace).reverse

/-- The preview pipeline on characters: collapse, trim, then `slice(0, 2000)`. -/
def previewChars (l : List Char) : List Char :=
  (jsTrim (collapseNewlines l)).take 2000

/-- Embedding of the `visibleText` computation of `getResponseData`. -/
def visibleTextPreview (body : String) : String :=
  ⟨previewChars body.data⟩

/-- Scanning check that every run of consecutive newlines has length at most
two; `k` is the length of the newline run ending just before the current
position. -/
def runsOk : List Char → Nat → Bool
  | [], _ => true
  | c :: rest, k =>
    if c = '\n' then decide (k + 1 ≤ 2) && runsOk rest (k + 1) else runsOk rest 0

/-! ## Shared tool wrapper (`try`/`catch` structure of every tool) -/

/-- Embedding of `err?.message || fallback`: a missing or empty message is
replaced by the tool's fallback text. -/
def normalizeMsg (err : Option String) (fallback : String) : String :=
  match err with
  | some m => if m = "" then fallback else m
  | none => fallback

/-- Embedding of the wrapper every registry tool shares: log the start, run
the body, then on success log the result and return it, and on failure log
the normalized message and re-raise the original failure.  A failure is
`Except.error err` where `err` is the thrown value's optional `.message`. -/
def runTool {α : Type} (name : String) (args : α) (fallback : String) (now : Nat)
    (body : Except (Option String) α) (log : List (ToolLogItem α)) :
    Except (Option String) α × List (ToolLogItem α) :=
  let log1 := logToolStart name args now log
  match body with
  | Except.ok v => (Except.ok v, logToolSuccess name v now log1)
  | Except.error err => (Except.error err, logToolError name (normalizeMsg err fallback) now log1)

/-- The tool names of the registry passed to the agent, in source order. -/
def registryToolNames : List String :=
  ["open_url", "click_by_text", "type_in_field", "press_enter", "scroll_page",
   "click_at", "take_screenshot", "get_response_data", "wait_for_human"]

/-! ## Lemmas about the execution log -/

theorem lastPendingIdx_some_get {α : Type} (name : String) :
    ∀ (log : List (ToolLogItem α)) (i : Nat), lastPendingIdx name log = some i →
      ∃ e, log.get? i = some e ∧ isPending name e = true := by
  intro log
  induction log with
  | nil => intro i h; simp [lastPendingIdx] at h
  | cons x rest ih =>
    intro i h
    rw [lastPendingIdx] at h
    cases hr : lastPendingIdx name rest with
    | some j =>
      rw [hr] at h
      obtain ⟨e, he, hp⟩ := ih j hr
      cases h
      exact ⟨e, by simpa using he, hp⟩
    | none =>
      rw [hr] at h
      by_cases hp : isPending name x
      · rw [if_pos hp] at h
        cases h
        exact ⟨x, rfl, hp⟩
      · rw [if_neg hp] at h
        cases h

theorem lastPendingIdx_none {α : Type} (name : String) :
    ∀ (log : List (ToolLogItem α)), lastPendingIdx name log = none →
      ∀ e ∈ log, isPending name e = false := by
  intro log
  induction log with
  | nil => intro _ e he; simp at he
  | cons x rest ih =>
    intro h e he
    rw [lastPendingIdx] at h
    cases hr : lastPendingIdx name rest with
    | some j => rw [hr] at h; cases h
    | none =>
      rw [hr] at h
      by_cases hp : isPending name x
      · rw [if_pos hp] at h; cases h
      · rcases List.mem_cons.mp he with rfl | hmem
        · exact Bool.eq_false_iff.mpr hp
        · exact ih hr e hmem

theorem lastPendingIdx_eq_some_of {α : Type} (name : String) :
    ∀ (log : List (ToolLogItem α)) (i : Nat) (e : ToolLogItem α),
      log.get? i = some e → isPending name e = true →
      (∀ e' ∈ log.drop (i + 1), isPending name e' = false) →
      lastPendingIdx name log = some i := by
  intro log
  induction log with
  | nil => intro i e hg; simp at hg
  | cons x rest ih =>
    intro i e hg hp hafter
    cases i with
    | zero =>
      have hx : x = e := by simpa using hg
      subst hx
      have hrest : lastPendingIdx name rest = none := by
        cases hr : lastPendingIdx name rest with
        | none => rfl
        | some j =>
          obtain ⟨e', hg', hp'⟩ := lastPendingIdx_some_get name rest j hr
          have hmem : e' ∈ rest := List.get?_mem hg'
          have : isPending name e' = false := hafter e' (by simpa using hmem)
          rw [this] at hp'
          cases hp'
      rw [lastPendingIdx, hrest, if_pos hp]
    | succ n =>
      have hg' : rest.get? n = some e := by simpa using hg
      have hafter' : ∀ e' ∈ rest.drop (n + 1), isPending name e' = false := by
        intro e' he'
        exact hafter e' (by simpa using he')
      have := ih n e hg' hp hafter'
      rw [lastPendingIdx, this]

theorem setResultAt_get?_self {α : Type} (v : α) :
    ∀ (log : List (ToolLogItem α)) (i : Nat),
      (setResultAt v log i).get? i = (log.get? i).map (fun e => { e with result := some v }) := by
  intro log
  induction log with
  | nil => intro i; simp [setResultAt]
  | cons x rest ih =>
    intro i
    cases i with
    | zero => simp [setResultAt]
    | succ n => simpa [setResultAt] using ih n

theorem setResultAt_get?_ne {α : Type} (v : α) :
    ∀ (log : List (ToolLogItem α)) (i j : Nat), j ≠ i →
      (setResultAt v log i).get? j = log.get? j := by
  intro log
  induction log with
  | nil => intro i j _; simp [setResultAt]
  | cons x rest ih =>
    intro i j hne
    cases i with
    | zero =>
      cases j with
      | zero => exact absurd rfl hne
      | succ m => simp [setResultAt]
    | succ n =>
      cases j with
      | zero => simp [setResultAt]
      | succ m => simpa [setResultAt] using ih n m (fun h => hne (by rw [h]))

theorem setErrorAt_get?_self {α : Type} (msg : String) :
    ∀ (log : List (ToolLogItem α)) (i : Nat),
      (setErrorAt msg log i).get? i = (log.get? i).map (fun e => { e with error := some msg }) := by
  intro log
  induction log with
  | nil => intro i; simp [setErrorAt]
  | cons x rest ih =>
    intro i
    cases i with
    | zero => simp [setErrorAt]
    | succ n => simpa [setErrorAt] using ih n

theorem setErrorAt_get?_ne {α : Type} (msg : String) :
    ∀ (log : List (ToolLogItem α)) (i j : Nat), j ≠ i →
      (setErrorAt msg log i).get? j = log.get? j := by
  intro log
  induction log with
  | nil => intro i j _; simp [setErrorAt]
  | cons x rest ih =>
    intro i j hne
    cases i with
    | zero =>
      cases j with
      | zero => exact absurd rfl hne
      | succ m => simp [setErrorAt]
    | succ n =>
      cases j with
      | zero => simp [setErrorAt]
      | succ m => simpa [setErrorAt] using ih n m (fun h => hne (by rw [h]))

theorem lastPendingIdx_append_pending {α : Type} (name : String) (e : ToolLogItem α)
    (hp : isPending name e = true) :
    ∀ log : List (ToolLogItem α), lastPendingIdx name (log ++ [e]) = some log.length := by
  intro log
  induction log with
  | nil => simp [lastPendingIdx, hp]
  | cons x rest ih =>
    have : (x :: rest) ++ [e] = x :: (rest ++ [e]) := rfl
    rw [this, lastPendingIdx, ih]
    rfl

theorem pending_not_resolved {α : Type} (name : String) (e : ToolLogItem α)
    (h : isPending name e = true) : resolvedEntry e = false := by
  rw [isPending, Bool.and_eq_true, Bool.and_eq_true] at h
  obtain ⟨⟨-, hr⟩, he⟩ := h
  rw [resolvedEntry, Option.isNone_iff_eq_none.mp hr, Option.isNone_iff_eq_none.mp he]
  rfl

theorem exclusiveOk_append_entry {α : Type} (log : List (ToolLogItem α)) (x : ToolLogItem α)
    (hx : exclusiveOk log) (hxe : x.result = none ∨ x.error = none) :
    exclusiveOk (log ++ [x]) := by
  intro e he
  rcases List.mem_append.mp he with h | h
  · exact hx e h
  · rw [List.mem_singleton.mp h]
    exact hxe

theorem get?_append_entry {α : Type} {l : List α} {i : Nat} {e : α}
    (h : l.get? i = some e) (x : α) : (l ++ [x]).get? i = some e := by
  have hi : i < l.length := by
    by_contra hge
    rw [List.get?_eq_none.mpr (Nat.le_of_not_lt hge)] at h
    cases h
  rw [List.get?_append hi]
  exact h

/-- C2: a success or error logging call resolves the most recent
(highest-index) pending entry with the same tool name, and appends a fresh
already-resolved entry when no entry with that name is pending. -/
theorem log_resolution_lifo {α : Type} (name : String) (v : α) (msg : String) (now : Nat)
    (log : List (ToolLogItem α)) (i : Nat) (e : ToolLogItem α) :
    (log.get? i = some e → isPending name e = true →
      (∀ e' ∈ log.drop (i + 1), isPending name e' = false) →
      logToolSuccess name v now log = setResultAt v log i ∧
      logToolError name msg now log = setErrorAt msg log i) ∧
    ((∀ e' ∈ log, isPending name e' = false) →
      logToolSuccess name v now log = log ++ [⟨name, none, some v, none, now⟩] ∧
      logToolError name msg now log = log ++ [⟨name, none, none, some msg, now⟩]) := by
  constructor
  · intro hg hp hafter
    have hidx := lastPendingIdx_eq_some_of name log i e hg hp hafter
    rw [logToolSuccess, logToolError, hidx]
    exact ⟨rfl, rfl⟩
  · intro hall
    have hnone : lastPendingIdx name log = none := by
      cases hl : lastPendingIdx name log with
      | none => rfl
      | some j =>
        obtain ⟨e', hg', hp'⟩ := lastPendingIdx_some_get name log j hl
        rw [hall e' (List.get?_mem hg')] at hp'
        cases hp'
    rw [logToolSuccess, logToolError, hnone]
    exact ⟨rfl, rfl⟩

/-- Witness for C2 on a concrete log: the second entry is the pending
`type_in_field` entry, and the success call resolves exactly that one. -/
theorem log_resolution_lifo_witness :
    logToolSuccess "type_in_field" (5 : Nat) 9
        [⟨"open_url", some 1, some 10, none, 0⟩, ⟨"type_in_field", some 2, none, none, 1⟩]
      = setResultAt 5
          [⟨"open_url", some 1, some 10, none, 0⟩, ⟨"type_in_field", some 2, none, none, 1⟩] 1 :=
  ((log_resolution_lifo "type_in_field" 5 "boom" 9
      [⟨"open_url", some 1, some 10, none, 0⟩, ⟨"type_in_field", some 2, none, none, 1⟩]
      1 ⟨"type_in_field", some 2, none, none, 1⟩).1 (by decide) (by decide) (by decide)).1

/-- C3: every logging operation preserves mutual exclusion of `result` and
`error`, and never modifies an entry that is already resolved. -/
theorem log_exclusive_immutable {α : Type} (op : LogOp α) (log : List (ToolLogItem α))
    (i : Nat) (e : ToolLogItem α) (hx : exclusiveOk log) :
    exclusiveOk (applyLogOp op log) ∧
    (log.get? i = some e → resolvedEntry e = true → (applyLogOp op log).get? i = some e) := by
  cases op with
  | start n a t =>
    exact ⟨exclusiveOk_append_entry log _ hx (Or.inl rfl),
      fun hg _ => get?_append_entry hg _⟩
  | success n v t =>
    cases hl : lastPendingIdx n log with
    | none =>
      have hstep : applyLogOp (LogOp.success n v t) log
          = log ++ [⟨n, none, some v, none, t⟩] := by
        show logToolSuccess n v t log = _
        rw [logToolSuccess, hl]
      rw [hstep]
      exact ⟨exclusiveOk_append_entry log _ hx (Or.inr rfl),
        fun hg _ => get?_append_entry hg _⟩
    | some j =>
      have hstep : applyLogOp (LogOp.success n v t) log = setResultAt v log j := by
        show logToolSuccess n v t log = _
        rw [logToolSuccess, hl]
      rw [hstep]
      obtain ⟨ep, hgj, hpj⟩ := lastPendingIdx_some_get n log j hl
      have herr : ep.error = none := by
        rw [isPending, Bool.and_eq_true, Bool.and_eq_true] at hpj
        exact Option.isNone_iff_eq_none.mp hpj.2
      constructor
      · intro e' he'
        obtain ⟨k, hk⟩ := List.mem_iff_get?.mp he'
        by_cases hkj : k = j
        · subst hkj
          rw [setResultAt_get?_self, hgj] at hk
          simp only [Option.map_some'] at hk
          injection hk with hk2
          subst hk2
          exact Or.inr herr
        · rw [setResultAt_get?_ne v log j k hkj] at hk
          exact hx e' (List.get?_mem hk)
      · intro hg hres
        by_cases hij : i = j
        · subst hij
          rw [hgj] at hg
          have hep : ep = e := by injection hg
          rw [← hep, pending_not_resolved n ep hpj] at hres
          cases hres
        · rw [setResultAt_get?_ne v log j i hij]
          exact hg
  | failure n m t =>
    cases hl : lastPendingIdx n log with
    | none =>
      have hstep : applyLogOp (LogOp.failure n m t) log
          = log ++ [⟨n, none, none, some m, t⟩] := by
        show logToolError n m t log = _
        rw [logToolError, hl]
      rw [hstep]
      exact ⟨exclusiveOk_append_entry log _ hx (Or.inl rfl),
        fun hg _ => get?_append_entry hg _⟩
    | some j =>
      have hstep : applyLogOp (LogOp.failure n m t) log = setErrorAt m log j := by
        show logToolError n m t log = _
        rw [logToolError, hl]
      rw [hstep]
      obtain ⟨ep, hgj, hpj⟩ := lastPendingIdx_some_get n log j hl
      have hrs : ep.result = none := by
        rw [isPending, Bool.and_eq_true, Bool.and_eq_true] at hpj
        exact Option.isNone_iff_eq_none.mp hpj.1.2
      constructor
      · intro e' he'
        obtain ⟨k, hk⟩ := List.mem_iff_get?.mp he'
        by_cases hkj : k = j
        · subst hkj
          rw [setErrorAt_get?_self, hgj] at hk
          simp only [Option.map_some'] at hk
          injection hk with hk2
          subst hk2
          exact Or.inl hrs
        · rw [setErrorAt_get?_ne m log j k hkj] at hk
          exact hx e' (List.get?_mem hk)
      · intro hg hres
        by_cases hij : i = j
        · subst hij
          rw [hgj] at hg
          have hep : ep = e := by injection hg
          rw [← hep, pending_not_resolved n ep hpj] at hres
          cases hres
        · rw [setErrorAt_get?_ne m log j i hij]
          exact hg

/-- Witness for C3: applying a success operation to a log holding one
resolved `open_url` entry keeps exclusion and leaves that entry unchanged. -/
theorem log_exclusive_immutable_witness :
    exclusiveOk (applyLogOp (LogOp.success "open_url" (7 : Nat) 3)
        [⟨"open_url", some 1, some 10, none, 0⟩]) ∧
    (([(⟨"open_url", some 1, some 10, none, 0⟩ : ToolLogItem Nat)]).get? 0
        = some ⟨"open_url", some 1, some 10, none, 0⟩ →
      resolvedEntry (⟨"open_url", some 1, some 10, none, 0⟩ : ToolLogItem Nat) = true →
      (applyLogOp (LogOp.success "open_url" 7 3)
          [⟨"open_url", some 1, some 10, none, 0⟩]).get? 0
        = some ⟨"open_url", some 1, some 10, none, 0⟩) :=
  log_exclusive_immutable (LogOp.success "open_url" 7 3)
    [⟨"open_url", some 1, some 10, none, 0⟩] 0
    ⟨"open_url", some 1, some 10, none, 0⟩ (by unfold exclusiveOk; decide)

/-- C6: on a failing body the shared tool wrapper re-raises the original
failure unchanged and resolves the entry it logged at invocation start with
the normalized message. -/
theorem tool_failure_propagation {α : Type} (name : String) (args : α) (fallback : String)
    (now : Nat) (err : Option String) (log : List (ToolLogItem α)) :
    runTool name args fallback now (Except.error err) log
      = (Except.error err,
          setErrorAt (normalizeMsg err fallback) (logToolStart name args now log) log.length) ∧
    (runTool name args fallback now (Except.error err) log).2.get? log.length
      = some ⟨name, some args, none, some (normalizeMsg err fallback), now⟩ := by
  have hpend : isPending name (⟨name, some args, none, none, now⟩ : ToolLogItem α) = true := by
    simp [isPending]
  have hl : lastPendingIdx name (logToolStart name args now log) = some log.length :=
    lastPendingIdx_append_pending name _ hpend log
  have h1 : runTool name args fallback now (Except.error err) log
      = (Except.error err,
          setErrorAt (normalizeMsg err fallback) (logToolStart name args now log) log.length) := by
    rw [runTool]
    rw [logToolError, hl]
  refine ⟨h1, ?_⟩
  rw [h1]
  show (setErrorAt (normalizeMsg err fallback) (logToolStart name args now log)
      log.length).get? log.length = _
  rw [setErrorAt_get?_self, logToolStart, List.get?_concat_length]
  rfl

/-! ## Lemmas about element resolution -/

theorem firstPresent_eq_find? (dom : Dom) :
    ∀ l : List String, firstPresent dom l = l.find? (fun s => decide (0 < dom.cssCount s)) := by
  intro l
  induction l with
  | nil => rfl
  | cons s rest ih =>
    by_cases h : 0 < dom.cssCount s
    · rw [firstPresent, if_pos h, List.find?_cons_of_pos _ (by simpa using h)]
    · rw [firstPresent, if_neg h, List.find?_cons_of_neg _ (by simpa using h), ih]

theorem find?_first_decomp {β : Type} (p : β → Bool) :
    ∀ (l : List β) (c : β), l.find? p = some c →
      ∃ pre post, l = pre ++ c :: post ∧ (∀ a ∈ pre, p a = false) ∧ p c = true := by
  intro l
  induction l with
  | nil => intro c h; simp at h
  | cons x rest ih =>
    intro c h
    by_cases hx : p x = true
    · rw [List.find?_cons_of_pos _ hx] at h
      injection h with h2
      subst h2
      exact ⟨[], rest, rfl, by simp, hx⟩
    · rw [List.find?_cons_of_neg _ (by simpa using hx)] at h
      obtain ⟨pre, post, heq, hpre, hc⟩ := ih c h
      refine ⟨x :: pre, post, by rw [heq, List.cons_append], ?_, hc⟩
      intro a ha
      rcases List.mem_cons.mp ha with rfl | ha2
      · exact Bool.eq_false_iff.mpr hx
      · exact hpre a ha2

theorem typeInField_eq_spec (dom : Dom) (field text : String) :
    typeInField dom field text = fieldResolutionSpec dom field := by
  rw [typeInField, fieldResolutionSpec, firstCandidate, candidateOrder]
  by_cases hl : 0 < dom.labelCount (trimString field)
  · rw [if_pos hl, List.find?_cons_of_pos _ (by simpa [candCount] using hl)]
    rfl
  · rw [if_neg hl, List.find?_cons_of_neg _ (by simpa [candCount] using hl),
      List.find?_append, List.find?_map, List.find?_map,
      firstPresent_eq_find?, firstPresent_eq_find?]
    have hcss : ((fun c => decide (0 < candCount dom c)) ∘ Candidate.css)
        = fun s => decide (0 < dom.cssCount s) := by
      funext s
      simp [Function.comp, candCount]
    have hsmart : ((fun c => decide (0 < candCount dom c)) ∘ Candidate.smart)
        = fun s => decide (0 < dom.cssCount s) := by
      funext s
      simp [Function.comp, candCount]
    rw [hcss, hsmart]
    cases hA : (attrSelectors (trimString field) ++ labelPatterns (trimString field)).find?
        (fun s => decide (0 < dom.cssCount s)) with
    | some sel => simp [hA, Option.or, candName]
    | none =>
      cases hB : (smartFallbacks (trimString field)).find? (fun s => decide (0 < dom.cssCount s)) with
      | some sel => simp [hA, hB, Option.or, candName]
      | none => simp [hA, hB, Option.or]

/-- C1: the resolution of `type_in_field` is deterministic first-match in the
fixed priority order (accessible label, then the attribute-substring
selectors placeholder / aria-label / name / id for input and textarea, then
the label-container patterns, then the smart fallbacks): it coincides with
the specification-side resolver, and the chosen candidate is the first in
that order whose match count is nonzero, every earlier candidate matching
nothing. -/
theorem type_in_field_first_match (dom : Dom) (field text : String) :
    typeInField dom field text = fieldResolutionSpec dom field ∧
    ∀ c, firstCandidate dom field = some c →
      ∃ pre post, candidateOrder field = pre ++ c :: post ∧
        (∀ c' ∈ pre, candCount dom c' = 0) ∧ 0 < candCount dom c := by
  refine ⟨typeInField_eq_spec dom field text, ?_⟩
  intro c hc
  obtain ⟨pre, post, heq, hpre, hc2⟩ := find?_first_decomp _ _ c hc
  refine ⟨pre, post, heq, ?_, by simpa using hc2⟩
  intro c' hc'
  have := hpre c' hc'
  simp only [decide_eq_false_iff_not, Nat.not_lt] at this
  omega

/-- Witness for C1 on a concrete DOM where only the aria-label selector for
"Email" matches: that selector is chosen, with every earlier candidate
matching nothing. -/
theorem type_in_field_first_match_witness :
    ∃ pre post,
      candidateOrder "Email"
        = pre ++ Candidate.css "input[aria-label*=\"Email\"]" :: post ∧
      (∀ c' ∈ pre,
        candCount
          { labelCount := fun _ => 0,
            cssCount := fun s => if s = "input[aria-label*=\"Email\"]" then 1 else 0,
            url := "u" } c' = 0) ∧
      0 < candCount
          { labelCount := fun _ => 0,
            cssCount := fun s => if s = "input[aria-label*=\"Email\"]" then 1 else 0,
            url := "u" }
          (Candidate.css "input[aria-label*=\"Email\"]") :=
  (type_in_field_first_match
      { labelCount := fun _ => 0,
        cssCount := fun s => if s = "input[aria-label*=\"Email\"]" then 1 else 0,
        url := "u" } "Email" "x").2
    (Candidate.css "input[aria-label*=\"Email\"]") (by decide)

/-- C4: `type_in_field` fails with the field-not-found error naming the
requested field exactly when every candidate strategy matches nothing, and
`click_by_text` fails with the error naming the requested text exactly when
no candidate selector is present. -/
theorem resolution_not_found_iff (dom : Dom) (field text ctext : String) :
    (typeInField dom field text = Except.error ("Input field not found: " ++ field)
      ↔ ∀ c ∈ candidateOrder field, candCount dom c = 0) ∧
    (clickByText dom ctext = Except.error ("Could not find clickable text: \"" ++ ctext ++ "\"")
      ↔ ∀ s ∈ clickCandidates ctext, dom.cssCount s = 0) := by
  constructor
  · rw [typeInField_eq_spec dom field text, fieldResolutionSpec]
    constructor
    · intro h c hc
      cases hfc : firstCandidate dom field with
      | some c0 => rw [hfc] at h; simp at h
      | none =>
        have := List.find?_eq_none.mp hfc c hc
        simp only [decide_eq_true_eq, Nat.not_lt] at this
        omega
    · intro h
      have hfc : firstCandidate dom field = none := by
        refine List.find?_eq_none.mpr ?_
        intro x hx
        simp [h x hx]
      rw [hfc]
  · rw [clickByText, firstPresent_eq_find? dom (clickCandidates ctext)]
    constructor
    · intro h s hs
      cases hf : (clickCandidates ctext).find? (fun s => decide (0 < dom.cssCount s)) with
      | some s0 => rw [hf] at h; simp at h
      | none =>
        have := List.find?_eq_none.mp hf s hs
        simp only [decide_eq_true_eq, Nat.not_lt] at this
        omega
    · intro h
      rw [List.find?_eq_none.mpr (by intro x hx; simp [h x hx])]

/-- Witness for C4 on a DOM where nothing matches: `type_in_field` fails
naming the field. -/
theorem resolution_not_found_iff_witness :
    typeInField { labelCount := fun _ => 0, cssCount := fun _ => 0, url := "u" } "Zip" "x"
      = Except.error ("Input field not found: " ++ "Zip") :=
  (resolution_not_found_iff
      { labelCount := fun _ => 0, cssCount := fun _ => 0, url := "u" }
      "Zip" "x" "Go").1.mpr (by decide)

/-! ## Lemmas about the `wait_for_human` loop -/

theorem waitLoop_success (env : Nat → RawObs) :
    ∀ (n iter i : Nat), i = iter + n → pollMs * i < budgetMs →
      (∀ j, iter ≤ j → j < i → blockedObs (env j) = true) →
      blockedObs (env i) = false →
      waitLoop env iter = (Except.ok ⟨(env i).url, "human_done"⟩, 1) := by
  intro n
  induction n with
  | zero =>
    intro iter i heq hlt hpre hclear
    have hii : i = iter := by omega
    subst hii
    rw [waitLoop, dif_pos hlt, if_neg (by rw [hclear]; exact Bool.false_ne_true)]
  | succ n ih =>
    intro iter i heq hlt hpre hclear
    have hmono : pollMs * iter < budgetMs := by
      simp only [pollMs, budgetMs] at hlt ⊢
      omega
    have hbl : blockedObs (env iter) = true := hpre iter (Nat.le_refl iter) (by omega)
    rw [waitLoop, dif_pos hmono, if_pos hbl]
    exact ih (iter + 1) i (by omega) hlt (fun j h1 h2 => hpre j (by omega) h2) hclear

theorem waitLoop_timeout (env : Nat → RawObs) :
    ∀ (n iter : Nat), budgetMs ≤ pollMs * iter + pollMs * n →
      (∀ j, pollMs * j < budgetMs → blockedObs (env j) = true) →
      waitLoop env iter = (Except.error "Captcha wait timed out after 2 minutes", 0) := by
  intro n
  induction n with
  | zero =>
    intro iter hbudget hb
    have hge : ¬ pollMs * iter < budgetMs := by
      simp only [pollMs, budgetMs] at hbudget ⊢
      omega
    rw [waitLoop, dif_neg hge]
  | succ n ih =>
    intro iter hbudget hb
    by_cases hc : pollMs * iter < budgetMs
    · rw [waitLoop, dif_pos hc, if_pos (hb iter hc)]
      refine ih (iter + 1) ?_ hb
      simp only [pollMs, budgetMs] at hbudget ⊢
      omega
    · rw [waitLoop, dif_neg hc]

/-- C5: `wait_for_human` succeeds, capturing one screenshot, at the first
poll iteration at which no challenge condition holds, and fails with the
timeout error, capturing no screenshot, exactly when every iteration inside
the 120 s budget is still blocked. -/
theorem wait_for_human_poll (env : Nat → RawObs) (i : Nat) :
    (pollMs * i < budgetMs → (∀ j, j < i → blockedObs (env j) = true) →
      blockedObs (env i) = false →
      waitForHuman env = (Except.ok ⟨(env i).url, "human_done"⟩, 1)) ∧
    ((∀ j, pollMs * j < budgetMs → blockedObs (env j) = true) →
      waitForHuman env = (Except.error "Captcha wait timed out after 2 minutes", 0)) := by
  constructor
  · intro hlt hpre hclear
    exact waitLoop_success env i 0 i (by omega) hlt (fun j _ hj => hpre j hj) hclear
  · intro hb
    exact waitLoop_timeout env 80 0 (by decide) hb

/-- Witness for C5: a page with no challenge markers succeeds on the first
iteration with a screenshot, and a page that never clears them times out
with none. -/
theorem wait_for_human_poll_witness :
    waitForHuman (fun _ => ⟨Except.ok 0, Except.ok 0, "https://ok.example/"⟩)
      = (Except.ok ⟨"https://ok.example/", "human_done"⟩, 1) ∧
    waitForHuman (fun _ => ⟨Except.ok 1, Except.ok 0, "https://blocked.example/"⟩)
      = (Except.error "Captcha wait timed out after 2 minutes", 0) :=
  ⟨(wait_for_human_poll (fun _ => ⟨Except.ok 0, Except.ok 0, "https://ok.example/"⟩) 0).1
      (by decide) (fun j hj => absurd hj (Nat.not_lt_zero j)) (by decide),
    (wait_for_human_poll (fun _ => ⟨Except.ok 1, Except.ok 0, "https://blocked.example/"⟩) 0).2
      (fun j _ => by decide)⟩

/-- C10: if both challenge-detection queries of an iteration throw and the
URL lacks the "sorry" marker, that iteration counts as unblocked, so the
loop succeeds there instead of polling on or surfacing the query failure. -/
theorem wait_for_human_detection_failure (env : Nat → RawObs) (i : Nat) (e1 e2 u : String)
    (hlt : pollMs * i < budgetMs)
    (hpre : ∀ j, j < i → blockedObs (env j) = true)
    (hobs : env i = ⟨Except.error e1, Except.error e2, u⟩)
    (hu : strContains u "sorry" = false) :
    waitForHuman env = (Except.ok ⟨u, "human_done"⟩, 1) := by
  have hclear : blockedObs (env i) = false := by
    rw [hobs]
    simp [blockedObs, queryHolds, hu]
  have h := waitLoop_success env i 0 i (by omega) hlt (fun j _ hj => hpre j hj) hclear
  rw [hobs] at h
  exact h

/-- Witness for C10: both detection queries throw on the very first
iteration of a non-challenge URL, and the loop succeeds immediately. -/
theorem wait_for_human_detection_failure_witness :
    waitForHuman (fun _ => ⟨Except.error "boom", Except.error "crash", "https://ok.example/"⟩)
      = (Except.ok ⟨"https://ok.example/", "human_done"⟩, 1) :=
  wait_for_human_detection_failure
    (fun _ => ⟨Except.error "boom", Except.error "crash", "https://ok.example/"⟩)
    0 "boom" "crash" "https://ok.example/" (by decide)
    (fun j hj => absurd hj (Nat.not_lt_zero j)) rfl (by decide)

/-! ## Lemmas about the session lifecycle -/

theorem swallowFailure_ok (x : Except String Unit) : swallowFailure x = Except.ok () := by
  cases x <;> rfl

theorem cleanupBody_ok (b : CloseBehavior) (s : Session) : cleanupBody b s = Except.ok () := by
  rw [cleanupBody, swallowFailure_ok, swallowFailure_ok, swallowFailure_ok]
  rfl

theorem reachable_aligned : ∀ s : Session, ReachableSession s → sessionAligned s := by
  intro s h
  induction h with
  | empty => exact ⟨rfl, rfl⟩
  | ensure s' h' hr ih =>
    rw [initializeBrowser]
    cases hb : s'.browser with
    | some x => exact ih
    | none => exact ⟨rfl, rfl⟩
  | cleanup b s' hr ih => exact ⟨rfl, rfl⟩

/-- C7: cleanup never fails — not on a double call, not on an uninitialized
session, not when any per-handle close fails — and always leaves all three
handles absent. -/
theorem cleanup_idempotent_total (b b' : CloseBehavior) (s : Session) :
    cleanupBrowser b s = (Except.ok (), emptySession) ∧
    cleanupBrowser b' (cleanupBrowser b s).2 = (Except.ok (), emptySession) := by
  refine ⟨?_, ?_⟩ <;> simp [cleanupBrowser, cleanupBody_ok]

/-- C8: every session state reachable by the lifecycle operations satisfies
the alignment invariant (page / context / browser are absent together), and
`initializeBrowser` creates the three handles only from the uninitialized
state, reusing a pre-existing session untouched. -/
theorem session_invariant_and_reuse (s s' : Session) (h : LaunchResult)
    (hreach : ReachableSession s) :
    sessionAligned s ∧
    (s'.browser.isSome = true → initializeBrowser s' h = s') ∧
    initializeBrowser emptySession h
      = { browser := some h.browserH, context := some h.contextH, page := some h.pageH } := by
  refine ⟨reachable_aligned s hreach, ?_, rfl⟩
  intro hb
  obtain ⟨x, hx⟩ := Option.isSome_iff_exists.mp hb
  rw [initializeBrowser, hx]

/-- Witness for C8: after one initialization the invariant holds, a second
initialization reuses the session, and the first call populated all three
handles. -/
theorem session_invariant_and_reuse_witness :
    sessionAligned (initializeBrowser emptySession ⟨⟨1⟩, ⟨2⟩, ⟨3⟩⟩) ∧
    ((initializeBrowser emptySession ⟨⟨1⟩, ⟨2⟩, ⟨3⟩⟩).browser.isSome = true →
      initializeBrowser (initializeBrowser emptySession ⟨⟨1⟩, ⟨2⟩, ⟨3⟩⟩) ⟨⟨4⟩, ⟨5⟩, ⟨6⟩⟩
        = initializeBrowser emptySession ⟨⟨1⟩, ⟨2⟩, ⟨3⟩⟩) ∧
    initializeBrowser emptySession ⟨⟨4⟩, ⟨5⟩, ⟨6⟩⟩
      = { browser := some ⟨4⟩, context := some ⟨5⟩, page := some ⟨6⟩ } :=
  session_invariant_and_reuse (initializeBrowser emptySession ⟨⟨1⟩, ⟨2⟩, ⟨3⟩⟩)
    (initializeBrowser emptySession ⟨⟨1⟩, ⟨2⟩, ⟨3⟩⟩) ⟨⟨4⟩, ⟨5⟩, ⟨6⟩⟩
    (ReachableSession.ensure emptySession ⟨⟨1⟩, ⟨2⟩, ⟨3⟩⟩ ReachableSession.empty)

/-! ## Lemmas about the text preview -/

theorem runsOk_collapseGo : ∀ (l : List Char) (k : Nat), runsOk (collapseGo k l) k = true := by
  intro l
  induction l with
  | nil => intro k; rfl
  | cons c rest ih =>
    intro k
    by_cases hc : c = '\n'
    · subst hc
      by_cases hk : k < 2
      · rw [collapseGo, if_pos rfl, if_pos hk, runsOk, if_pos rfl, ih (k + 1)]
        have hle : k + 1 ≤ 2 := by omega
        simp [hle]
      · rw [collapseGo, if_pos rfl, if_neg hk]
        exact ih k
    · rw [collapseGo, if_neg hc, runsOk, if_neg hc]
      exact ih 0

theorem runsOk_append : ∀ (s m : List Char) (k : Nat),
    runsOk (s ++ m) k = true → ∃ k', runsOk m k' = true := by
  intro s
  induction s with
  | nil => intro m k h; exact ⟨k, h⟩
  | cons c s' ih =>
    intro m k h
    rw [List.cons_append, runsOk] at h
    by_cases hc : c = '\n'
    · rw [if_pos hc, Bool.and_eq_true] at h
      exact ih m (k + 1) h.2
    · rw [if_neg hc] at h
      exact ih m 0 h

theorem runsOk_triple_false (t : List Char) (k : Nat) :
    runsOk ('\n' :: '\n' :: '\n' :: t) k = false := by
  have h3 : decide (k + 1 + 1 + 1 ≤ 2) = false := by
    simp only [decide_eq_false_iff_not]
    omega
  rw [runsOk, if_pos rfl, runsOk, if_pos rfl, runsOk, if_pos rfl, h3]
  simp

theorem noTriple_of_runsOk (l : List Char) (h : runsOk l 0 = true) :
    ¬ ['\n', '\n', '\n'] <:+: l := by
  intro htrip
  obtain ⟨s, t, hst⟩ := htrip
  rw [← hst, List.append_assoc] at h
  obtain ⟨k', hk'⟩ := runsOk_append s (['\n', '\n', '\n'] ++ t) 0 h
  rw [show (['\n', '\n', '\n'] ++ t) = '\n' :: '\n' :: '\n' :: t from rfl,
    runsOk_triple_false t k'] at hk'
  cases hk'

theorem previewChars_infix_collapse (l : List Char) :
    previewChars l <:+: collapseNewlines l := by
  have h1 : (collapseNewlines l).dropWhile Char.isWhitespace <:+ collapseNewlines l :=
    List.dropWhile_suffix _
  have h2 : jsTrim (collapseNewlines l) <+: (collapseNewlines l).dropWhile Char.isWhitespace := by
    refine List.reverse_suffix.mp ?_
    rw [jsTrim, List.reverse_reverse]
    exact List.dropWhile_suffix _
  have h3 : previewChars l <+: jsTrim (collapseNewlines l) := by
    rw [previewChars]
    exact List.take_prefix 2000 _
  exact ((h3.trans h2).isInfix).trans h1.isInfix

/-- C9: the visible-text preview is at most 2000 characters long and holds
no run of three or more consecutive newline characters. -/
theorem preview_truncated_no_triple (body : String) :
    (visibleTextPreview body).length ≤ 2000 ∧
    ¬ ['\n', '\n', '\n'] <:+: (visibleTextPreview body).toList := by
  constructor
  · show (previewChars body.data).length ≤ 2000
    rw [previewChars, List.length_take]
    omega
  · show ¬ ['\n', '\n', '\n'] <:+: previewChars body.data
    intro htrip
    have hcoll : ¬ ['\n', '\n', '\n'] <:+: collapseNewlines body.data :=
      noTriple_of_runsOk _ (runsOk_collapseGo body.data 0)
    exact hcoll (htrip.trans (previewChars_infix_collapse body.data))

end BrowserAgent
